import Mathlib

/-!
Verification development for the PICclock firmware (PIC16F18344 hybrid
NCO/software clock generator).  The definitions below are a shallow
embedding of the firmware's main control loop and its NCO driver
primitives (source file: the PICclock `main.c`, found in
`src/src/clc_debounce.h` after the header proper).

Machine registers that the control logic reads or writes are modelled as
fields of an explicit state record; each C register write becomes a
micro-operation on that record.  The physical output pin RB6 is a
mux: when `RB6PPS = 0x1D` (29) it follows the NCO peripheral's output,
otherwise it follows the port latch bit `LATB6`.  A disabled NCO
(`NCO1CON = 0x00`) outputs low; an enabled NCO's instantaneous output is
an autonomous signal we quantify over.
-/

/-- State of the registers and control variables that the PICclock main
loop manipulates.  `ncoEn` models bit 7 of `NCO1CON`; `ncoInc` the
20-bit increment register `NCO1INCU:H:L`; `rb6pps` the `RB6PPS` pin
routing register (`0x1D` = NCO1, `0x00` = latch); `latb6` the port
latch bit `LATB6`; `led` the debug LED latch `LATC5`.  The remaining
fields are the C locals of `main`: `software_mode`, `half_period`,
`running`, `halted`, `last_adc`, `freq_entry`. -/
structure Sys where
  ncoEn : Bool
  ncoInc : Nat
  rb6pps : Nat
  latb6 : Bool
  led : Bool
  softwareMode : Bool
  halfPeriod : Nat
  running : Bool
  halted : Bool
  lastAdc : Nat
  freqEntry : Nat
  deriving Repr, DecidableEq

/-- Micro-operation: one register write of the firmware, or one
assignment to a C local of `main` that participates in a handoff. -/
inductive Wr where
  | ncoCon (en : Bool)
  | inc (v : Nat)
  | pps (v : Nat)
  | lat (b : Bool)
  | swFlag (b : Bool)
  | halfPer (v : Nat)
  deriving Repr, DecidableEq

/-- Effect of a single micro-operation on the machine state.  The NCO
increment write masks the upper byte with `0x0F`, so the effective
increment is the value modulo `2^20` (source: `nco_set_increment`). -/
def applyWr : Wr → Sys → Sys
  | .ncoCon e, s => { s with ncoEn := e }
  | .inc v, s => { s with ncoInc := v % 1048576 }
  | .pps v, s => { s with rb6pps := v }
  | .lat b, s => { s with latb6 := b }
  | .swFlag b, s => { s with softwareMode := b }
  | .halfPer v, s => { s with halfPeriod := v }

/-- Run a list of micro-operations in order. -/
def runWs (ws : List Wr) (s : Sys) : Sys := ws.foldl (fun t w => applyWr w t) s

/-- Trace of intermediate states (initial state included) produced by a
list of micro-operations. -/
def wTrace (ws : List Wr) (s : Sys) : List Sys := ws.scanl (fun t w => applyWr w t) s

/-- Write sequence of `nco_set_increment`: disable the NCO, load the new
increment, re-enable (source lines 132-141). -/
def ncoSetIncrementWs (v : Nat) : List Wr := [.ncoCon false, .inc v, .ncoCon true]

/-- Write sequence of `nco_stop`: disable the NCO and force the latch
low (source lines 146-149).  `RB6PPS` is not written. -/
def ncoStopWs : List Wr := [.ncoCon false, .lat false]

/-- Write sequence of `nco_disconnect`: disable the NCO, detach it from
RB6, force the latch low (source lines 155-159). -/
def ncoDisconnectWs : List Wr := [.ncoCon false, .pps 0, .lat false]

/-- Write sequence of `nco_connect`: route NCO1 to RB6, enable the NCO
(source lines 164-167). -/
def ncoConnectWs : List Wr := [.pps 29, .ncoCon true]

/-- Net effect of `nco_set_increment` on the machine state. -/
def nco_set_increment (v : Nat) (s : Sys) : Sys := runWs (ncoSetIncrementWs v) s

/-- Net effect of `nco_stop` on the machine state. -/
def nco_stop (s : Sys) : Sys := runWs ncoStopWs s

/-- Net effect of `nco_disconnect` on the machine state. -/
def nco_disconnect (s : Sys) : Sys := runWs ncoDisconnectWs s

/-- Net effect of `nco_connect` on the machine state. -/
def nco_connect (s : Sys) : Sys := runWs ncoConnectWs s

/-- Instantaneous level of the RB6 output pin.  `ncoSig` is the
autonomous output the NCO peripheral would currently produce if it is
enabled; a disabled NCO outputs low; when `RB6PPS` does not select the
NCO, the pin follows the latch. -/
def pin (s : Sys) (ncoSig : Bool) : Bool :=
  if s.rb6pps = 29 then s.ncoEn && ncoSig else s.latb6

/-- The pin reads low regardless of what the autonomous NCO signal is
doing. -/
def pinLow (s : Sys) : Prop := pin s true = false ∧ pin s false = false

instance (s : Sys) : Decidable (pinLow s) := by unfold pinLow; infer_instance

/-- The hardware (NCO) generator is asserting the pin: it is routed to
RB6 and enabled. -/
def ncoAsserting (s : Sys) : Prop := s.rb6pps = 29 ∧ s.ncoEn = true

/-- The software generator is asserting the pin: RB6 follows the latch
and the latch is driven high. -/
def swAsserting (s : Sys) : Prop := s.rb6pps ≠ 29 ∧ s.latb6 = true

instance (s : Sys) : Decidable (ncoAsserting s) := by unfold ncoAsserting; infer_instance

instance (s : Sys) : Decidable (swAsserting s) := by unfold swAsserting; infer_instance

/-!
Main control loop (source `main`, lines 196-380).  One iteration of the
`while (1)` loop samples the two mode-select switches, then takes one of
three branches: halt (`mode & 2`), step (`mode & 1`), or variable
frequency.  The switches are active low; an `Iter` record carries the
already-decoded assertions plus the oracles for the reads the iteration
may perform (ADC samples and mid-phase switch re-checks).
-/

/-- Equality of the IS_SOFTWARE_MODE macro on a packed frequency-table
entry.  Modelled from the spec: `freq_table.h` is not in the source
tree; per `src/src/README.md` bit 31 of an entry is the mode tag
(1 = software). -/
def isSoftwareMode (e : Nat) : Bool := e / 2147483648 % 2 = 1

/-- Value field of a packed frequency-table entry.  Modelled from the
spec: per `src/src/README.md` the payload is bits 0-23 (software
half-period in cycles) or bits 0-19 (NCO increment). -/
def getFreqValue (e : Nat) : Nat := e % 16777216

/-- Hysteresis guard of the ADC re-check, exactly as written at source
lines 339-340 and 361-362: `adc_val != last_adc` and then
`adc_val > last_adc + 1 || adc_val < last_adc - 1`.  The `uint8_t`
operands promote to `int` in C, so the arithmetic is over `Int` with no
wraparound at 0 or 255. -/
def hystTrigger (last a : Nat) : Bool :=
  decide (a ≠ last) &&
    (decide ((a : Int) > (last : Int) + 1) || decide ((a : Int) < (last : Int) - 1))

/-- Outcome of one ADC re-check while running. -/
inductive AdcRes where
  | noChange
  | swUpdate
  | ncoSwitch
  deriving Repr, DecidableEq

/-- Handoff performed when the running software generator discovers an
NCO-mode table entry (source lines 345-349): clear `software_mode`,
`nco_connect()`, `nco_set_increment()`. -/
def swToHwWs (v : Nat) : List Wr :=
  Wr.swFlag false :: (ncoConnectWs ++ ncoSetIncrementWs v)

/-- Handoff performed when the NCO-mode poll discovers a software-mode
table entry (source lines 367-370): set `software_mode`,
`nco_disconnect()`, store the new half-period. -/
def hwToSwWs (v : Nat) : List Wr :=
  Wr.swFlag true :: (ncoDisconnectWs ++ [Wr.halfPer v])

/-- ADC re-check body of the software generator's low phase (source
lines 338-355): under the hysteresis guard, look the new sample up and
either hand off to the NCO or update the half-period in place. -/
def lowAdcCheck (table : Nat → Nat) (a : Nat) (s : Sys) : Sys × AdcRes :=
  if hystTrigger s.lastAdc a then
    let e := table a
    let s1 := { s with lastAdc := a, freqEntry := e }
    if isSoftwareMode e then
      ({ s1 with halfPeriod := getFreqValue e }, .swUpdate)
    else
      (runWs (swToHwWs (getFreqValue e)) s1, .ncoSwitch)
  else (s, .noChange)

/-- High-phase delay loop of the software generator (source lines
312-324): `delay_10us` iterations of a 10 µs wait, re-checking the mode
switches every 1024 iterations (`i & 0x3FF`); on a mode change the
latch is forced low and the loop breaks.  Arguments: switch-read
oracle, fuel, loop counter `i`, bound `n`, state.  Returns the state
and whether the phase was aborted by a mode change. -/
def highLoop (checks : Nat → Bool) : Nat → Nat → Nat → Sys → Sys × Bool
  | 0, _, _, s => (s, false)
  | fuel + 1, i, n, s =>
    if i < n then
      if i % 1024 = 0 && checks i then ({ s with latb6 := false }, true)
      else highLoop checks fuel (i + 1) n s
    else (s, false)

/-- Low-phase delay loop of the software generator (source lines
329-357): like the high phase, but each surviving re-check also runs
the ADC hysteresis check, which may update the half-period (and hence
the loop bound `delay_10us = half_period / 240`) or break out to the
NCO handoff.  Returns the state and whether the loop was aborted by a
mode change. -/
def lowLoop (table : Nat → Nat) (checks : Nat → Bool) (adcs : Nat → Nat) :
    Nat → Nat → Nat → Sys → Sys × Bool
  | 0, _, _, s => (s, false)
  | fuel + 1, i, n, s =>
    if i < n then
      if i % 1024 = 0 then
        if checks i then (s, true)
        else
          match lowAdcCheck table (adcs i) s with
          | (s1, .ncoSwitch) => (s1, false)
          | (s1, .swUpdate) => lowLoop table checks adcs fuel (i + 1) (s1.halfPeriod / 240) s1
          | (s1, _) => lowLoop table checks adcs fuel (i + 1) n s1
      else lowLoop table checks adcs fuel (i + 1) n s
    else (s, false)

/-- Inputs consumed by one iteration of the main loop: the two decoded
switch assertions, whether a qualified step-button press occurs in the
step branch, the ADC sample of the resume branch, the ADC sample of the
NCO-mode poll, the mid-phase switch-read oracles (`true` means `m != 0`,
i.e. halt or step asserted at that re-check), the mid-phase ADC oracle,
and the fuel bounding the software phase loops. -/
structure Iter where
  haltSel : Bool
  stepSel : Bool
  btnPulse : Bool
  adcR : Nat
  adcPoll : Nat
  checksHigh : Nat → Bool
  checksLow : Nat → Bool
  adcsLow : Nat → Nat
  fuel : Nat

/-- One high-plus-low phase pair of the software generator (source
lines 305-357).  Drives the latch high, runs the high-phase delay loop,
drives the latch low, runs the low-phase delay loop.  Returns the state
and the two mode-change abort flags (high phase, low phase). -/
def softPhasePair (table : Nat → Nat) (it : Iter) (s : Sys) : Sys × Bool × Bool :=
  let n := s.halfPeriod / 240
  let r1 := highLoop it.checksHigh it.fuel 0 n { s with latb6 := true }
  let s2 := { r1.1 with latb6 := false }
  let r2 := lowLoop table it.checksLow it.adcsLow it.fuel 0 n s2
  (r2.1, r1.2, r2.2)

/-- NCO-mode poll (source lines 358-377): read the ADC once and, under
the hysteresis guard, either hand off to the software generator or
update the increment in place. -/
def ncoPoll (table : Nat → Nat) (a : Nat) (s : Sys) : Sys :=
  if hystTrigger s.lastAdc a then
    let e := table a
    let s1 := { s with lastAdc := a, freqEntry := e }
    if isSoftwareMode e then runWs (hwToSwWs (getFreqValue e)) s1
    else nco_set_increment (getFreqValue e) s1
  else s

/-- Halt branch (source lines 248-261): on first entry stop whichever
generator is active (latch low in software mode, `nco_stop()` in NCO
mode), LED off, set `halted`, clear `running`; on re-entry do
nothing. -/
def haltBranch (s : Sys) : Sys :=
  if s.halted then s
  else
    let s1 := if s.softwareMode then { s with latb6 := false } else nco_stop s
    { s1 with led := false, halted := true, running := false }

/-- Step branch (source lines 264-280): under the guard
`running || !halted` disconnect the NCO if it was active and force the
latch low; LED on; then a qualified button press produces one fixed
pulse whose net latch effect is low.  The press/pulse/release protocol
itself is modelled at reading granularity by `stepPulseDurations`
below. -/
def stepBranch (s : Sys) (pulse : Bool) : Sys :=
  let s1 :=
    if s.running || !s.halted then
      let s2 := if !s.softwareMode then nco_disconnect s else s
      { s2 with latb6 := false, running := false, halted := true }
    else s
  let s3 := { s1 with led := true }
  if pulse then { s3 with latb6 := false } else s3

/-- Resume branch (source lines 286-302): re-read the ADC, look the
fresh sample up, and start the generator the entry's mode selects
(`nco_connect()` then `nco_set_increment()` for NCO mode, the new
half-period for software mode); LED on, `running`, not `halted`. -/
def resumeStep (table : Nat → Nat) (a : Nat) (s : Sys) : Sys :=
  let e := table a
  let s1 := { s with lastAdc := a, freqEntry := e, softwareMode := isSoftwareMode e }
  let s2 :=
    if isSoftwareMode e then { s1 with halfPeriod := getFreqValue e }
    else nco_set_increment (getFreqValue e) (nco_connect s1)
  { s2 with led := true, running := true, halted := false }

/-- Generation phase of the running branch: the software phase pair
when `software_mode` is set, the NCO poll otherwise. -/
def genPhase (table : Nat → Nat) (it : Iter) (s : Sys) : Sys :=
  if s.softwareMode then (softPhasePair table it s).1 else ncoPoll table it.adcPoll s

/-- Which branch of the main loop an iteration took. -/
inductive Branch where
  | haltB
  | stepB
  | runB
  deriving Repr, DecidableEq

/-- One full iteration of the main `while (1)` loop (source lines
243-379).  `mode & 2` (halt asserted) is tested first, then `mode & 1`
(step asserted), then the variable-frequency branch with its resume
check. -/
def mainStep (table : Nat → Nat) (s : Sys) (it : Iter) : Sys × Branch :=
  if it.haltSel then (haltBranch s, .haltB)
  else if it.stepSel then (stepBranch s it.btnPulse, .stepB)
  else
    (genPhase table it (if s.halted then resumeStep table it.adcR s else s), .runB)

/-- Iterated main loop over a list of per-iteration inputs. -/
def iterRun (table : Nat → Nat) (l : List Iter) (s : Sys) : Sys :=
  l.foldl (fun t it => (mainStep table t it).1) s

/-- Startup state (source lines 196-240): `nco_init` routes NCO1 to RB6
with increment 1 and enables it, all latches low; then the first ADC
sample is looked up and the matching generator is configured, with
`running = 1`, `halted = 0`. -/
def initSys (table : Nat → Nat) (a0 : Nat) : Sys :=
  let e := table a0
  let s0 : Sys :=
    { ncoEn := true, ncoInc := 1, rb6pps := 29, latb6 := false, led := true,
      softwareMode := isSoftwareMode e, halfPeriod := 0, running := true,
      halted := false, lastAdc := a0, freqEntry := e }
  if isSoftwareMode e then { nco_disconnect s0 with halfPeriod := getFreqValue e }
  else nco_set_increment (getFreqValue e) s0

/-- Reachability invariant of the main loop: whenever the software
generator is the active one the NCO is disabled, and in a halted state
the NCO is disabled and the latch is low. -/
def SysInv (s : Sys) : Prop :=
  (s.softwareMode = false ∨ s.ncoEn = false) ∧
    (s.halted = false ∨ (s.ncoEn = false ∧ s.latb6 = false))

instance (s : Sys) : Decidable (SysInv s) := by unfold SysInv; infer_instance

/-!
Step-button protocol at reading granularity (source `button_pressed`
lines 181-189, `wait_button_release` lines 191-194, and the step-branch
body lines 275-278).  Each list element is one successive read of
`STEP_BTN`, `true` meaning the button reads asserted (the pin reads 0).
`button_pressed` reads once and, if asserted, reads again after the
20 ms confirmation delay; a confirmed press runs `output_step_pulse`
(a fixed 10 ms high pulse) and then `wait_button_release`, which
re-reads until a released reading is observed and then waits a further
20 ms.  The durations (in ms) of the pulses emitted over a finite
reading trace are collected in order.
-/

/-- Readings consumed by `wait_button_release`: every asserted reading
of the held button plus the first released reading. -/
def dropRelease : List Bool → List Bool
  | [] => []
  | true :: r => dropRelease r
  | false :: r => r

/-- Step-branch controller over a trace of button readings.  The Bool
state is true while the controller is blocked inside
`wait_button_release`.  In the idle state a released reading is
skipped; an asserted reading followed by a released confirmation read
is rejected (bounce); an asserted reading whose confirmation read is
still asserted emits one fixed 10 ms pulse and enters the
release-wait state, which consumes readings until the button is
observed released. -/
def stepRunAux : Bool → List Bool → List Nat
  | true, [] => []
  | true, true :: r => stepRunAux true r
  | true, false :: r => stepRunAux false r
  | false, [] => []
  | false, false :: r => stepRunAux false r
  | false, [true] => []
  | false, true :: false :: r => stepRunAux false r
  | false, true :: true :: r => 10 :: stepRunAux true r

/-- Durations (ms) of the output pulses the step branch emits over a
finite trace of button readings, starting idle. -/
def stepPulseDurations (l : List Bool) : List Nat := stepRunAux false l

/-- Lengths of the maximal runs of asserted readings in a trace; the
accumulator carries the length of the run in progress.  Each maximal
run is one physical press as seen through the sampling interface. -/
def pressRunsAux : Nat → List Bool → List Nat
  | 0, [] => []
  | k + 1, [] => [k + 1]
  | 0, false :: r => pressRunsAux 0 r
  | k + 1, false :: r => (k + 1) :: pressRunsAux 0 r
  | k, true :: r => pressRunsAux (k + 1) r

/-- Lengths of the maximal asserted runs of a trace. -/
def pressRuns (l : List Bool) : List Nat := pressRunsAux 0 l

/-- Number of qualified presses in a trace: maximal asserted runs that
survive the confirmation re-read, i.e. runs of at least two
readings. -/
def qualifiedPresses (l : List Bool) : Nat := (pressRuns l).countP (fun n => 2 ≤ n)

/-!
Frequency table.  Modelled from the spec: `freq_table.h` (the 256-entry
`freq_table[]` and its macros) is not under `src/`; only its
documentation is (`src/src/README.md` lines 71-83).  Per that
documentation and spec section 4.1 the table is logarithmically spaced
from 1 Hz to 1 MHz over indices 0-255, software entries (bit 31 set,
value = half-period in 24 MHz cycles, `F = 12e6 / value`) below the
~12 Hz boundary and NCO entries (bit 31 clear, value = 20-bit
increment, `F = value * 24e6 / 2^21`) at and above it.
-/

/-- Modelled from the spec: target output frequency of table index `i`
in microhertz.  Index 0 is 1 Hz and each step multiplies by
`10^(6/255) ≈ 1.055673`, the logarithmic spacing that reaches 1 MHz at
index 255. -/
def specFreqScaled : Nat → Nat
  | 0 => 1000000
  | n + 1 => specFreqScaled n * 1055673 / 1000000

/-- Modelled from the spec: packed `freq_table[]` entry for index `i`.
Below 12 Hz the entry is bit 31 plus the software half-period
`12e6 / F` in cycles; at and above 12 Hz it is the NCO increment
`F * 2^21 / 24e6`. -/
def specEntry (i : Nat) : Nat :=
  let F := specFreqScaled i
  if F < 12000000 then 2147483648 + 12000000000000 / F
  else F * 2097152 / 24000000000000

/-- The spec table as a lookup function usable by the control loop. -/
def specTable : Nat → Nat := fun i => specEntry i

/-- Output frequency in Hz that a packed entry decodes to, per the
formulas of `src/src/README.md`: `12e6 / half_period` for a software
entry, `increment * 24e6 / 2^21` for an NCO entry. -/
def decodedFreq (e : Nat) : Nat :=
  if isSoftwareMode e then 12000000 / getFreqValue e
  else getFreqValue e * 24000000 / 2097152

/-!
Concrete fixture states used to instantiate hypothesis-bearing
theorems.
-/

/-- Concrete running state in NCO (hardware) mode: NCO enabled and
routed to RB6, latch low. -/
def sysHw : Sys :=
  { ncoEn := true, ncoInc := 1024, rb6pps := 29, latb6 := false, led := true,
    softwareMode := false, halfPeriod := 0, running := true, halted := false,
    lastAdc := 100, freqEntry := 1024 }

/-- Concrete running state in software mode: NCO disabled and detached,
latch under software control. -/
def sysSw : Sys :=
  { ncoEn := false, ncoInc := 1, rb6pps := 0, latb6 := false, led := true,
    softwareMode := true, halfPeriod := 1200000, running := true, halted := false,
    lastAdc := 10, freqEntry := 2148683648 }

/-- Concrete halted state reached by asserting halt while in hardware
mode: NCO stopped but still selected by `RB6PPS`. -/
def sysHalted : Sys :=
  { ncoEn := false, ncoInc := 1024, rb6pps := 29, latb6 := false, led := false,
    softwareMode := false, halfPeriod := 0, running := false, halted := true,
    lastAdc := 100, freqEntry := 1024 }

/-- Concrete iteration input with both selectors deasserted and benign
oracles. -/
def iterQuiet : Iter :=
  { haltSel := false, stepSel := false, btnPulse := false, adcR := 128,
    adcPoll := 100, checksHigh := fun _ => false, checksLow := fun _ => false,
    adcsLow := fun _ => 10, fuel := 0 }

/-- Iteration input whose re-check oracles report a mode change at
every check point: both software phases abort immediately. -/
def iterAbort : Iter :=
  { iterQuiet with checksHigh := fun _ => true, checksLow := fun _ => true, fuel := 2 }

/-!
Theorems.  The kernel evaluation of the 256-entry spec table needs a
deeper recursion stack than the default.
-/

set_option maxRecDepth 100000

/-- At no instant do both generators assert the pin: RB6 is a mux
selected by `RB6PPS`, so the two asserting conditions are mutually
exclusive in every state. -/
theorem no_dual_drive (s : Sys) : ¬ (ncoAsserting s ∧ swAsserting s) := by
  rintro ⟨⟨h1, -⟩, ⟨h2, -⟩⟩
  exact h2 h1

theorem dropRelease_length_le (l : List Bool) : (dropRelease l).length ≤ l.length := by
  induction l with
  | nil => simp [dropRelease]
  | cons b r ih =>
    cases b with
    | true =>
      simp only [dropRelease]
      exact Nat.le_succ_of_le ih
    | false => simp [dropRelease]


/-- C2: for 8-bit samples, the re-check triggers a table re-lookup and
generator reconfiguration exactly when the new sample differs from the
last acted-upon sample by more than 1; a difference of at most 1 (in
particular exactly 1, and at the boundary values 0 and 255) leaves both
the NCO-mode poll and the software low-phase check without any
reconfiguration. -/
theorem hysteresis_trigger_iff (last a : Nat) (h1 : last ≤ 255) (h2 : a ≤ 255) :
    (hystTrigger last a = true ↔ 1 < ((a : Int) - (last : Int)).natAbs) ∧
    (((a : Int) - (last : Int)).natAbs ≤ 1 →
      (∀ (table : Nat → Nat) (s : Sys), s.lastAdc = last → ncoPoll table a s = s) ∧
      (∀ (table : Nat → Nat) (s : Sys), s.lastAdc = last →
        lowAdcCheck table a s = (s, AdcRes.noChange))) := by
  have hiff : hystTrigger last a = true ↔ 1 < ((a : Int) - (last : Int)).natAbs := by
    simp [hystTrigger]
    omega
  refine ⟨hiff, fun hle => ⟨fun table s hs => ?_, fun table s hs => ?_⟩⟩
  · have hf : hystTrigger s.lastAdc a = false := by
      rw [hs]
      rcases Bool.eq_false_or_eq_true (hystTrigger last a) with h | h
      · exact absurd (hiff.mp h) (by omega)
      · exact h
    simp [ncoPoll, hf]
  · have hf : hystTrigger s.lastAdc a = false := by
      rw [hs]
      rcases Bool.eq_false_or_eq_true (hystTrigger last a) with h | h
      · exact absurd (hiff.mp h) (by omega)
      · exact h
    simp [lowAdcCheck, hf]

/-- Witness for `hysteresis_trigger_iff` at the boundary `last = 255`,
`a = 254` (difference exactly 1: no trigger, no reconfiguration). -/
theorem hysteresis_trigger_iff_witness :
    (255 : Nat) ≤ 255 ∧ (254 : Nat) ≤ 255 ∧
      (hystTrigger 255 254 = true ↔ 1 < (((254 : Nat) : Int) - ((255 : Nat) : Int)).natAbs) := by
  refine ⟨by decide, by decide, (hysteresis_trigger_iff 255 254 (by decide) (by decide)).1⟩

/-- C4 counterexample: the claim that `nco_disconnect` leaves the
peripheral's internal counting enabled fails on the code.  From the
concrete hardware-mode running state the NCO enable bit reads true
before the call and false after it: `nco_disconnect` writes
`NCO1CON = 0x00`, disabling the oscillator. -/
theorem nco_disconnect_counterexample :
    sysHw.ncoEn = true ∧ (nco_disconnect sysHw).ncoEn = false ∧
      ¬ (nco_disconnect sysHw).ncoEn = sysHw.ncoEn := by decide

/-- C4 amended: `nco_disconnect` detaches the NCO from the physical pin
(`RB6PPS := 0`, so the pin reverts to the latch, driven low) and also
disables the NCO peripheral (`NCO1CON := 0`); every other register, in
particular the 20-bit increment, is left unchanged, so reconnecting
later needs no re-initialisation of the increment. -/
theorem nco_disconnect_frame (s : Sys) :
    nco_disconnect s = { s with ncoEn := false, rb6pps := 0, latb6 := false } := rfl

/-- C8: when both selectors indicate non-running conditions (halt and
step asserted simultaneously) the iteration takes the halt branch, not
the step branch; and step is taken exactly when step is asserted while
halt is not. -/
theorem halt_priority_over_step (table : Nat → Nat) (s : Sys) (it : Iter)
    (h1 : it.haltSel = true) (h2 : it.stepSel = true) :
    (mainStep table s it).2 = Branch.haltB ∧
    (mainStep table s it).1 = haltBranch s ∧
    (∀ it2 : Iter, it2.haltSel = false → it2.stepSel = true →
      (mainStep table s it2).2 = Branch.stepB) := by
  refine ⟨by simp [mainStep, h1], by simp [mainStep, h1], fun it2 g1 g2 => ?_⟩
  simp [mainStep, g1, g2]

/-- Witness for `halt_priority_over_step`: both selectors asserted on a
concrete running state. -/
theorem halt_priority_over_step_witness :
    (mainStep specTable sysHw { iterQuiet with haltSel := true, stepSel := true }).2 =
      Branch.haltB :=
  (halt_priority_over_step specTable sysHw
    { iterQuiet with haltSel := true, stepSel := true } rfl rfl).1

/-- C9: `nco_stop` writes only the oscillator enable register and the
output latch — every other field, in particular the `RB6PPS` routing
register and the increment, is unchanged, so after a halt from hardware
mode `RB6PPS` still selects the NCO; and the transition from Halted
into Stepping skips the reconfiguration guard (`running || !halted` is
false), performing no `nco_disconnect`: the whole iteration leaves the
routing register untouched (only the LED and, on a pulse, the latch are
written), so the routing set at halt entry persists across the step
branch's direct latch writes until `nco_disconnect` next runs. -/
theorem nco_stop_frame_and_step_entry_keeps_routing (table : Nat → Nat) (s : Sys)
    (it : Iter) (h1 : s.running = false) (h2 : s.halted = true)
    (h3 : it.haltSel = false) (h4 : it.stepSel = true) :
    (∀ t : Sys, nco_stop t = { t with ncoEn := false, latb6 := false }) ∧
    (mainStep table s it).1.rb6pps = s.rb6pps ∧
    (mainStep table s it).1 =
      (if it.btnPulse then { s with led := true, latb6 := false }
       else { s with led := true }) := by
  refine ⟨fun t => rfl, ?_, ?_⟩
  · simp [mainStep, h3, h4, stepBranch, h1, h2]
    cases it.btnPulse <;> simp
  · simp [mainStep, h3, h4, stepBranch, h1, h2]

/-- Witness for `nco_stop_frame_and_step_entry_keeps_routing`: entering
step mode from the concrete halted-from-hardware state preserves
`RB6PPS = 0x1D`. -/
theorem nco_stop_frame_and_step_entry_keeps_routing_witness :
    (mainStep specTable sysHalted { iterQuiet with stepSel := true }).1.rb6pps =
      sysHalted.rb6pps :=
  (nco_stop_frame_and_step_entry_keeps_routing specTable sysHalted
    { iterQuiet with stepSel := true } rfl rfl rfl rfl).2.1

/-- C10: every entry of the (spec-modelled) 256-entry frequency table
decodes to an output frequency in [1 Hz, 1 MHz]; the decoded frequency
is non-decreasing in the index; the software-mode entries are exactly
the contiguous prefix of indices 0-45 and the NCO-mode entries the
contiguous suffix 46-255; and the boundary entry decodes to 11 Hz with
a target frequency of ~12.09 Hz — the ~12 Hz boundary. -/
theorem freq_table_range_monotone_split :
    ((List.range 256).all fun i =>
      decide (1 ≤ decodedFreq (specEntry i)) &&
        decide (decodedFreq (specEntry i) ≤ 1000000) &&
        (isSoftwareMode (specEntry i) == decide (i < 46))) = true ∧
    ((List.range 255).all fun i =>
      decide (decodedFreq (specEntry i) ≤ decodedFreq (specEntry (i + 1)))) = true ∧
    decodedFreq (specEntry 46) = 11 ∧
    12000000 ≤ specFreqScaled 46 ∧ specFreqScaled 46 ≤ 12100000 ∧
    specFreqScaled 45 < 12000000 := by
  exact ⟨by decide, by decide, by decide, by decide, by decide, by decide⟩

/-!
Supporting lemmas: the reachability invariant and the halt branch.
-/

/-- Both mux branches of the pin read low when the NCO is disabled and
the latch is low. -/
theorem pinLow_of (s : Sys) (h1 : s.ncoEn = false) (h2 : s.latb6 = false) :
    pinLow s := by
  constructor <;> simp [pin, h1, h2]

/-- The halt branch leaves an already-halted state untouched (source
lines 249-258: the body runs only under `if (!halted)`). -/
theorem haltBranch_skip (s : Sys) (h : s.halted = true) : haltBranch s = s := by
  simp [haltBranch, h]

/-- On a state satisfying the reachability invariant, the halt branch
produces a halted state with the NCO disabled and the latch low. -/
theorem haltBranch_props (s : Sys) (h : SysInv s) :
    (haltBranch s).halted = true ∧ (haltBranch s).ncoEn = false ∧
      (haltBranch s).latb6 = false ∧ SysInv (haltBranch s) := by
  obtain ⟨hi1, hi2⟩ := h
  cases hh : s.halted with
  | true =>
    rcases hi2 with h' | ⟨h1', h2'⟩
    · rw [hh] at h'
      exact absurd h' (by simp)
    · simp [haltBranch, hh, h1', h2', SysInv, hi1]
  | false =>
    cases hsw : s.softwareMode with
    | true =>
      rcases hi1 with h' | h'
      · rw [hsw] at h'
        exact absurd h' (by simp)
      · simp [haltBranch, hh, hsw, h', SysInv]
    | false =>
      simp [haltBranch, hh, hsw, nco_stop, runWs, applyWr, ncoStopWs, SysInv]

/-- Iterating the main loop from a halted state under a constantly
asserted halt selector is the identity: every iteration takes the halt
branch and skips its body. -/
theorem iterRun_halt_fixed (table : Nat → Nat) (l : List Iter) (t : Sys)
    (ht : t.halted = true) (h2 : ∀ it ∈ l, it.haltSel = true) :
    iterRun table l t = t := by
  induction l with
  | nil => rfl
  | cons it l' ih =>
    have hh : it.haltSel = true := h2 it (by simp)
    have hstep : (mainStep table t it).1 = t := by
      simp [mainStep, hh, haltBranch_skip t ht]
    show List.foldl _ _ _ = _
    rw [List.foldl_cons, hstep]
    exact ih (fun x hx => h2 x (by simp [hx]))

/-- C3: from any state satisfying the reachability invariant (any of
Running in software mode, Running in hardware mode, or Stepping),
asserting the halt selector forces the output pin low within one
control-loop iteration — and for every non-empty run of iterations in
which the halt selector stays asserted, the resulting state still has
the pin low, the NCO disabled and the latch low (no generator
re-enabled), and is marked halted. -/
theorem halt_forces_and_keeps_pin_low (table : Nat → Nat) (s : Sys) (l : List Iter)
    (h1 : SysInv s) (h2 : ∀ it ∈ l, it.haltSel = true) (h3 : l ≠ []) :
    pinLow (iterRun table l s) ∧ (iterRun table l s).halted = true ∧
      (iterRun table l s).ncoEn = false ∧ (iterRun table l s).latb6 = false := by
  cases l with
  | nil => exact absurd rfl h3
  | cons it l' =>
    have hh : it.haltSel = true := h2 it (by simp)
    have hstep : (mainStep table s it).1 = haltBranch s := by simp [mainStep, hh]
    obtain ⟨p1, p2, p3, _⟩ := haltBranch_props s h1
    have hrest : iterRun table l' (haltBranch s) = haltBranch s :=
      iterRun_halt_fixed table l' (haltBranch s) p1 (fun x hx => h2 x (by simp [hx]))
    have : iterRun table (it :: l') s = haltBranch s := by
      show List.foldl _ _ _ = _
      rw [List.foldl_cons, hstep]
      exact hrest
    rw [this]
    exact ⟨pinLow_of _ p2 p3, p1, p2, p3⟩

/-- Witness for `halt_forces_and_keeps_pin_low`: two consecutive
halt-asserted iterations from the concrete hardware-mode running state
leave the pin low and the NCO disabled. -/
theorem halt_forces_and_keeps_pin_low_witness :
    pinLow (iterRun specTable
        [{ iterQuiet with haltSel := true }, { iterQuiet with haltSel := true }] sysHw) ∧
      (iterRun specTable
        [{ iterQuiet with haltSel := true }, { iterQuiet with haltSel := true }] sysHw).halted
        = true ∧
      (iterRun specTable
        [{ iterQuiet with haltSel := true }, { iterQuiet with haltSel := true }] sysHw).ncoEn
        = false ∧
      (iterRun specTable
        [{ iterQuiet with haltSel := true }, { iterQuiet with haltSel := true }] sysHw).latb6
        = false :=
  halt_forces_and_keeps_pin_low specTable sysHw
    [{ iterQuiet with haltSel := true }, { iterQuiet with haltSel := true }]
    (by constructor <;> simp [sysHw])
    (by intro x hx; simp only [List.mem_cons, List.not_mem_nil, or_false] at hx
        rcases hx with rfl | rfl <;> rfl)
    (by simp)

/-- C1: during both live handoffs between the software generator and
the NCO the output pin reads low at every instant a handoff is in
progress, and at no instant do both generators drive the pin.  For the
software-to-hardware handoff (taken only at a low-phase re-check point,
so the latch is already low and, by the reachability invariant, the NCO
is disabled): every state up to and including the moment the routing is
switched — i.e. strictly before `connect()` first enables the NCO —
reads low, every state of the whole write trace is either low or has
the NCO as the sole driver with the latch still low, and the handoff
completes with the NCO asserting the pin.  For the hardware-to-software
handoff: from the first write of `nco_disconnect()` on, every state
reads low, and the handoff completes with the NCO disabled and
detached and the latch low, before any software phase begins. -/
theorem handoff_pin_low (s t : Sys) (v w : Nat)
    (hs1 : s.softwareMode = true) (hs2 : s.ncoEn = false) (hs3 : s.latb6 = false)
    (ht1 : t.softwareMode = false) (ht2 : t.latb6 = false) :
    (∀ u ∈ (wTrace (swToHwWs v) s).take 3, pinLow u) ∧
    (∀ u ∈ wTrace (swToHwWs v) s, ¬ (ncoAsserting u ∧ swAsserting u)) ∧
    (∀ u ∈ wTrace (swToHwWs v) s, pinLow u ∨ (ncoAsserting u ∧ u.latb6 = false)) ∧
    ncoAsserting (runWs (swToHwWs v) s) ∧
    (∀ u ∈ (wTrace (hwToSwWs w) t).drop 2, pinLow u) ∧
    (∀ u ∈ wTrace (hwToSwWs w) t, ¬ (ncoAsserting u ∧ swAsserting u)) ∧
    (runWs (hwToSwWs w) t).ncoEn = false ∧ (runWs (hwToSwWs w) t).rb6pps = 0 ∧
    (runWs (hwToSwWs w) t).latb6 = false ∧ (runWs (hwToSwWs w) t).softwareMode = true := by
  have tr1 : wTrace (swToHwWs v) s = [s, { s with softwareMode := false }, { s with softwareMode := false, rb6pps := 29 }, { s with softwareMode := false, rb6pps := 29, ncoEn := true }, { s with softwareMode := false, rb6pps := 29, ncoEn := false }, { s with softwareMode := false, rb6pps := 29, ncoEn := false, ncoInc := v % 1048576 }, { s with softwareMode := false, rb6pps := 29, ncoEn := true, ncoInc := v % 1048576 }] := by
    simp [wTrace, swToHwWs, ncoConnectWs, ncoSetIncrementWs, List.scanl, applyWr]
  have tr2 : wTrace (hwToSwWs w) t = [t, { t with softwareMode := true }, { t with softwareMode := true, ncoEn := false }, { t with softwareMode := true, ncoEn := false, rb6pps := 0 }, { t with softwareMode := true, ncoEn := false, rb6pps := 0, latb6 := false }, { t with softwareMode := true, ncoEn := false, rb6pps := 0, latb6 := false, halfPeriod := w }] := by
    simp [wTrace, hwToSwWs, ncoDisconnectWs, List.scanl, applyWr]
  refine ⟨?_, ?_, ?_, ?_, ?_, ?_, ?_, ?_, ?_, ?_⟩
  · rw [tr1]
    intro u hu
    simp only [List.take, List.mem_cons, List.not_mem_nil, or_false] at hu
    rcases hu with rfl | rfl | rfl <;> exact pinLow_of _ (by simp [hs2]) (by simp [hs3])
  · intro u _
    exact no_dual_drive u
  · rw [tr1]
    intro u hu
    simp only [List.mem_cons, List.not_mem_nil, or_false] at hu
    rcases hu with rfl | rfl | rfl | rfl | rfl | rfl | rfl
    · exact Or.inl (pinLow_of _ hs2 hs3)
    · exact Or.inl (pinLow_of _ (by simp [hs2]) (by simp [hs3]))
    · exact Or.inl (pinLow_of _ (by simp [hs2]) (by simp [hs3]))
    · exact Or.inr ⟨⟨rfl, rfl⟩, by simp [hs3]⟩
    · exact Or.inl (pinLow_of _ (by simp) (by simp [hs3]))
    · exact Or.inl (pinLow_of _ (by simp) (by simp [hs3]))
    · exact Or.inr ⟨⟨rfl, rfl⟩, by simp [hs3]⟩
  · exact ⟨rfl, rfl⟩
  · rw [tr2]
    intro u hu
    simp only [List.drop, List.mem_cons, List.not_mem_nil, or_false] at hu
    rcases hu with rfl | rfl | rfl | rfl <;>
      exact pinLow_of _ (by simp) (by simp [ht2])
  · intro u _
    exact no_dual_drive u
  · rfl
  · rfl
  · rfl
  · rfl

/-- Witness for `handoff_pin_low`: the concrete software-mode running
state hands off to the NCO with the pin low through the transfer
window and the NCO asserting afterwards, and the concrete
hardware-mode state hands off to software with the pin low from the
disconnect on. -/
theorem handoff_pin_low_witness :
    (∀ u ∈ (wTrace (swToHwWs 1024) sysSw).take 3, pinLow u) ∧
      ncoAsserting (runWs (swToHwWs 1024) sysSw) ∧
      (∀ u ∈ (wTrace (hwToSwWs 1200000) sysHw).drop 2, pinLow u) :=
  ⟨(handoff_pin_low sysSw sysHw 1024 1200000 rfl rfl rfl rfl rfl).1,
    (handoff_pin_low sysSw sysHw 1024 1200000 rfl rfl rfl rfl rfl).2.2.2.1,
    (handoff_pin_low sysSw sysHw 1024 1200000 rfl rfl rfl rfl rfl).2.2.2.2.1⟩

/-!
Supporting lemmas: the software generator's phase loops.
-/

/-- The high-phase loop either completes without touching the state or
aborts on a mode change with the latch forced low and nothing else
changed. -/
theorem highLoop_cases (checks : Nat → Bool) (fuel : Nat) :
    ∀ (i n : Nat) (s : Sys), highLoop checks fuel i n s = (s, false) ∨
      highLoop checks fuel i n s = ({ s with latb6 := false }, true) := by
  induction fuel with
  | zero => intro i n s; left; rfl
  | succ f ih =>
    intro i n s
    by_cases h1 : i < n
    · by_cases h2 : (i % 1024 = 0 && checks i) = true
      · right; simp [highLoop, h1, h2]
      · rcases ih (i + 1) n s with h | h
        · left
          simp [highLoop, h1, h2, h]
        · right
          simp [highLoop, h1, h2, h]
    · left; simp [highLoop, h1]

/-- The low-phase ADC re-check never touches the latch, the NCO enable,
or the routing unless it breaks out into the NCO handoff. -/
theorem lowAdcCheck_frame (table : Nat → Nat) (a : Nat) (s : Sys) :
    (lowAdcCheck table a s).2 = AdcRes.ncoSwitch ∨
      ((lowAdcCheck table a s).1.latb6 = s.latb6 ∧
        (lowAdcCheck table a s).1.ncoEn = s.ncoEn ∧
        (lowAdcCheck table a s).1.rb6pps = s.rb6pps ∧
        (lowAdcCheck table a s).1.softwareMode = s.softwareMode) := by
  unfold lowAdcCheck
  by_cases h : hystTrigger s.lastAdc a = true
  · by_cases h2 : isSoftwareMode (table a) = true
    · right; simp [h, h2]
    · left; simp [h, h2]
  · right; simp [h]

/-- If the low-phase loop aborts on a mode change, the state it hands
back has the same latch, NCO enable and routing it started with: the
loop body mutates only the frequency bookkeeping before a mode
abort. -/
theorem lowLoop_abort_frame (table : Nat → Nat) (checks : Nat → Bool)
    (adcs : Nat → Nat) (fuel : Nat) :
    ∀ (i n : Nat) (s : Sys), (lowLoop table checks adcs fuel i n s).2 = true →
      (lowLoop table checks adcs fuel i n s).1.latb6 = s.latb6 ∧
      (lowLoop table checks adcs fuel i n s).1.ncoEn = s.ncoEn ∧
      (lowLoop table checks adcs fuel i n s).1.rb6pps = s.rb6pps := by
  induction fuel with
  | zero => intro i n s h; simp [lowLoop] at h
  | succ f ih =>
    intro i n s h
    by_cases h1 : i < n
    · by_cases h2 : i % 1024 = 0
      · by_cases h3 : checks i = true
        · simp [lowLoop, h1, h2, h3]
        · rcases hE : lowAdcCheck table (adcs i) s with ⟨s1, res⟩
          have hframe := lowAdcCheck_frame table (adcs i) s
          rw [hE] at hframe
          cases res with
          | ncoSwitch =>
            rw [show (lowLoop table checks adcs (f + 1) i n s).2 = false from by
              simp [lowLoop, h1, h2, h3, hE]] at h
            cases h
          | swUpdate =>
            have hrec : lowLoop table checks adcs (f + 1) i n s =
                lowLoop table checks adcs f (i + 1) (s1.halfPeriod / 240) s1 := by
              simp [lowLoop, h1, h2, h3, hE]
            rw [hrec] at h ⊢
            obtain ⟨f1, f2, f3⟩ := ih (i + 1) (s1.halfPeriod / 240) s1 h
            rcases hframe with hf | ⟨g1, g2, g3, -⟩
            · simp at hf
            · simp only [hE] at g1 g2 g3
              exact ⟨f1.trans g1, f2.trans g2, f3.trans g3⟩
          | noChange =>
            have hrec : lowLoop table checks adcs (f + 1) i n s =
                lowLoop table checks adcs f (i + 1) n s1 := by
              simp [lowLoop, h1, h2, h3, hE]
            rw [hrec] at h ⊢
            obtain ⟨f1, f2, f3⟩ := ih (i + 1) n s1 h
            rcases hframe with hf | ⟨g1, g2, g3, -⟩
            · simp at hf
            · simp only [hE] at g1 g2 g3
              exact ⟨f1.trans g1, f2.trans g2, f3.trans g3⟩
      · have hrec : lowLoop table checks adcs (f + 1) i n s =
            lowLoop table checks adcs f (i + 1) n s := by
          simp [lowLoop, h1, h2]
        rw [hrec] at h ⊢
        exact ih (i + 1) n s h
    · simp [lowLoop, h1] at h

/-- Whichever way the high phase ends, the low phase starts from the
same state with the latch low, so the phase pair decomposes into its
two loops over a common low-phase start state. -/
theorem softPhasePair_eq (table : Nat → Nat) (it : Iter) (s : Sys) :
    softPhasePair table it s =
      ((lowLoop table it.checksLow it.adcsLow it.fuel 0 (s.halfPeriod / 240)
          { s with latb6 := false }).1,
        (highLoop it.checksHigh it.fuel 0 (s.halfPeriod / 240)
          { s with latb6 := true }).2,
        (lowLoop table it.checksLow it.adcsLow it.fuel 0 (s.halfPeriod / 240)
          { s with latb6 := false }).2) := by
  rcases highLoop_cases it.checksHigh it.fuel 0 (s.halfPeriod / 240)
      { s with latb6 := true } with hH | hH <;>
    simp [softPhasePair, hH]

/-- C7: when the software generator's phase wait is interrupted at a
re-check point because the user mode has changed away from Running
(halt or step asserted), the phase is aborted with the output in the
low state, never left high — in the high phase the abort itself forces
the latch low and skips the rest of the wait; in the low phase the
state handed back to the mode state machine has the latch low and, the
NCO being disabled throughout software mode, the pin reads low. -/
theorem midphase_interrupt_pin_low (table : Nat → Nat) (it : Iter) (s : Sys)
    (h1 : s.softwareMode = true) (h2 : s.ncoEn = false) :
    ((softPhasePair table it s).2.1 = true →
      (highLoop it.checksHigh it.fuel 0 (s.halfPeriod / 240)
        { s with latb6 := true }).1.latb6 = false) ∧
    ((softPhasePair table it s).2.2 = true →
      (softPhasePair table it s).1.latb6 = false ∧
        pinLow (softPhasePair table it s).1) := by
  rw [softPhasePair_eq]
  constructor
  · intro hab
    rcases highLoop_cases it.checksHigh it.fuel 0 (s.halfPeriod / 240)
        { s with latb6 := true } with hH | hH
    · rw [hH] at hab
      cases hab
    · rw [hH]
  · intro hab
    obtain ⟨f1, f2, f3⟩ := lowLoop_abort_frame table it.checksLow it.adcsLow it.fuel 0
      (s.halfPeriod / 240) { s with latb6 := false } hab
    have g1 : (lowLoop table it.checksLow it.adcsLow it.fuel 0 (s.halfPeriod / 240)
        { s with latb6 := false }).1.latb6 = false :=
      f1.trans (show ({ s with latb6 := false }).latb6 = false from rfl)
    have g2 : (lowLoop table it.checksLow it.adcsLow it.fuel 0 (s.halfPeriod / 240)
        { s with latb6 := false }).1.ncoEn = false :=
      f2.trans (show ({ s with latb6 := false }).ncoEn = false from h2)
    exact ⟨g1, pinLow_of _ g2 g1⟩

/-- Witness for `midphase_interrupt_pin_low`: on the concrete
software-mode state a mode change at the first re-check aborts both
phases, and the returned state has the latch low and the pin low. -/
theorem midphase_interrupt_pin_low_witness :
    (softPhasePair specTable iterAbort sysSw).2.2 = true ∧
      (softPhasePair specTable iterAbort sysSw).1.latb6 = false ∧
      pinLow (softPhasePair specTable iterAbort sysSw).1 :=
  ⟨by decide,
    (midphase_interrupt_pin_low specTable iterAbort sysSw rfl rfl).2 (by decide)⟩

/-- C5: whenever an iteration leaves Halted or Stepping for Running
(state flagged halted, both selectors deasserted), the control input is
re-sampled and freshly looked up, the state becomes running and not
halted, and the generator matching the resolved mode is started: an
NCO entry yields `connect()` followed by `set_increment()` with the
entry's value (NCO enabled, routed to RB6, increment loaded), a
software entry loads the entry's half-period without touching the NCO;
the rest of the iteration is the normal generation phase from the
resumed state.  In the concrete scenario, resuming the halted state
with sample 128 activates the generator matching
`lookup(128).mode` — the spec-modelled table resolves 128 to an NCO
entry and the NCO ends up connected and enabled. -/
theorem resume_restarts_matching_generator (table : Nat → Nat) (s : Sys) (it : Iter)
    (h1 : s.halted = true) (h2 : it.haltSel = false) (h3 : it.stepSel = false) :
    (mainStep table s it).1 = genPhase table it (resumeStep table it.adcR s) ∧
    (resumeStep table it.adcR s).lastAdc = it.adcR ∧
    (resumeStep table it.adcR s).freqEntry = table it.adcR ∧
    (resumeStep table it.adcR s).softwareMode = isSoftwareMode (table it.adcR) ∧
    (resumeStep table it.adcR s).running = true ∧
    (resumeStep table it.adcR s).halted = false ∧
    (isSoftwareMode (table it.adcR) = false →
      resumeStep table it.adcR s = { nco_set_increment (getFreqValue (table it.adcR)) (nco_connect { s with lastAdc := it.adcR, freqEntry := table it.adcR, softwareMode := false }) with led := true, running := true, halted := false } ∧
      (resumeStep table it.adcR s).ncoEn = true ∧
      (resumeStep table it.adcR s).rb6pps = 29 ∧
      (resumeStep table it.adcR s).ncoInc = getFreqValue (table it.adcR) % 1048576) ∧
    (isSoftwareMode (table it.adcR) = true →
      (resumeStep table it.adcR s).halfPeriod = getFreqValue (table it.adcR) ∧
      (resumeStep table it.adcR s).ncoEn = s.ncoEn ∧
      (resumeStep table it.adcR s).rb6pps = s.rb6pps) ∧
    isSoftwareMode (specTable 128) = false ∧
    (resumeStep specTable 128 sysHalted).ncoEn = true ∧
    (resumeStep specTable 128 sysHalted).rb6pps = 29 := by
  refine ⟨by simp [mainStep, h2, h3, h1], ?_, ?_, ?_, ?_, ?_, ?_, ?_, ?_, ?_, ?_⟩
  · by_cases hsw : isSoftwareMode (table it.adcR) = true <;>
      simp [resumeStep, hsw, nco_set_increment, nco_connect, runWs, applyWr,
        ncoSetIncrementWs, ncoConnectWs]
  · by_cases hsw : isSoftwareMode (table it.adcR) = true <;>
      simp [resumeStep, hsw, nco_set_increment, nco_connect, runWs, applyWr,
        ncoSetIncrementWs, ncoConnectWs]
  · by_cases hsw : isSoftwareMode (table it.adcR) = true <;>
      simp [resumeStep, hsw, nco_set_increment, nco_connect, runWs, applyWr,
        ncoSetIncrementWs, ncoConnectWs]
  · by_cases hsw : isSoftwareMode (table it.adcR) = true <;>
      simp [resumeStep, hsw, nco_set_increment, nco_connect, runWs, applyWr,
        ncoSetIncrementWs, ncoConnectWs]
  · by_cases hsw : isSoftwareMode (table it.adcR) = true <;>
      simp [resumeStep, hsw, nco_set_increment, nco_connect, runWs, applyWr,
        ncoSetIncrementWs, ncoConnectWs]
  · intro hsw
    refine ⟨?_, ?_, ?_, ?_⟩ <;>
      simp [resumeStep, hsw, nco_set_increment, nco_connect, runWs, applyWr,
        ncoSetIncrementWs, ncoConnectWs]
  · intro hsw
    refine ⟨?_, ?_, ?_⟩ <;>
      simp [resumeStep, hsw, nco_set_increment, nco_connect, runWs, applyWr,
        ncoSetIncrementWs, ncoConnectWs]
  · decide
  · decide
  · decide

/-- Witness for `resume_restarts_matching_generator`: the concrete
halted state with sample 128 and both selectors deasserted resumes into
the generation phase with the NCO generator active. -/
theorem resume_restarts_matching_generator_witness :
    (mainStep specTable sysHalted iterQuiet).1 =
      genPhase specTable iterQuiet (resumeStep specTable iterQuiet.adcR sysHalted) ∧
    (resumeStep specTable iterQuiet.adcR sysHalted).running = true ∧
    isSoftwareMode (specTable 128) = false ∧
    (resumeStep specTable 128 sysHalted).ncoEn = true :=
  ⟨(resume_restarts_matching_generator specTable sysHalted iterQuiet rfl rfl rfl).1,
    (resume_restarts_matching_generator specTable sysHalted iterQuiet rfl rfl rfl).2.2.2.2.1,
    (resume_restarts_matching_generator specTable sysHalted iterQuiet
      rfl rfl rfl).2.2.2.2.2.2.2.2.1,
    (resume_restarts_matching_generator specTable sysHalted iterQuiet
      rfl rfl rfl).2.2.2.2.2.2.2.2.2.1⟩


/-!
Supporting lemmas: counting qualified presses.
-/

/-- The release-wait state consumes exactly the readings
`wait_button_release` reads, then continues idle. -/
theorem stepRunAux_true_eq (l : List Bool) :
    stepRunAux true l = stepRunAux false (dropRelease l) := by
  induction l with
  | nil => rfl
  | cons b r ih =>
    cases b with
    | true => simpa [stepRunAux, dropRelease] using ih
    | false => simp [stepRunAux, dropRelease]

/-- A run already at least two readings long counts as one qualified
press, whatever the rest of the trace holds. -/
theorem pressRunsAux_count_ge_two (r : List Bool) :
    ∀ k, 2 ≤ k →
      (pressRunsAux k r).countP (fun n => 2 ≤ n) =
        1 + (pressRunsAux 0 (dropRelease r)).countP (fun n => 2 ≤ n) := by
  induction r with
  | nil =>
    intro k hk
    obtain ⟨j, rfl⟩ : ∃ j, k = j + 1 := ⟨k - 1, by omega⟩
    have hd : decide (2 ≤ j + 1) = true := decide_eq_true hk
    simp only [pressRunsAux, dropRelease, List.countP_cons, List.countP_nil, hd]
    simp
  | cons b r ih =>
    intro k hk
    cases b with
    | true =>
      simp only [pressRunsAux, dropRelease]
      exact ih (k + 1) (Nat.le_succ_of_le hk)
    | false =>
      obtain ⟨j, rfl⟩ : ∃ j, k = j + 1 := ⟨k - 1, by omega⟩
      have hd : decide (2 ≤ j + 1) = true := decide_eq_true hk
      simp only [pressRunsAux, dropRelease, List.countP_cons, hd]
      simp only [if_true]
      omega

/-- Bounded-length form of the pulse-counting equality, by strong
induction on the trace length along the controller's own case
split. -/
theorem stepRun_count_aux :
    ∀ (n : Nat) (l : List Bool), l.length ≤ n →
      stepRunAux false l = List.replicate (qualifiedPresses l) 10 := by
  intro n
  induction n with
  | zero =>
    intro l h
    have : l = [] := List.eq_nil_of_length_eq_zero (Nat.le_zero.mp h)
    subst this
    rfl
  | succ m ih =>
    intro l h
    match l with
    | [] => rfl
    | false :: r =>
      have hr : r.length ≤ m := by
        simp only [List.length_cons] at h
        omega
      simp only [stepRunAux, qualifiedPresses, pressRuns, pressRunsAux]
      exact ih r hr
    | [true] => rfl
    | true :: false :: r =>
      have hr : r.length ≤ m := by
        simp only [List.length_cons] at h
        omega
      have hq : qualifiedPresses (true :: false :: r) = qualifiedPresses r := by
        simp [qualifiedPresses, pressRuns, pressRunsAux, List.countP_cons]
      rw [show stepRunAux false (true :: false :: r) = stepRunAux false r from rfl,
        hq]
      exact ih r hr
    | true :: true :: r =>
      have hr : (dropRelease r).length ≤ m := by
        have := dropRelease_length_le r
        simp only [List.length_cons] at h
        omega
      have hq : qualifiedPresses (true :: true :: r) =
          1 + qualifiedPresses (dropRelease r) := by
        simp only [qualifiedPresses, pressRuns]
        simpa [pressRunsAux] using pressRunsAux_count_ge_two r 2 (by omega)
      rw [show stepRunAux false (true :: true :: r) =
          10 :: stepRunAux true r from rfl,
        stepRunAux_true_eq r, hq, ih (dropRelease r) hr]
      simp [List.replicate_succ, Nat.add_comm]

/-- A button that is never released leaves nothing after the release
wait: the controller stays blocked to the end of the trace. -/
theorem dropRelease_replicate (k : Nat) :
    dropRelease (List.replicate k true) = [] := by
  induction k with
  | zero => rfl
  | succ m ih => simpa [List.replicate_succ, dropRelease] using ih

/-- C6: over any finite trace of button readings while in Stepping, the
controller emits exactly one pulse of the fixed 10 ms duration per
qualified press — a maximal run of asserted readings that survives the
confirmation re-read (length at least two) — so the emitted pulse list
is exactly `qualifiedPresses` copies of the fixed duration; and a
button held asserted for the whole trace (any length at least two)
produces exactly one pulse, never a pulse train. -/
theorem step_one_pulse_per_press (l : List Bool) (n : Nat) (h : 2 ≤ n) :
    stepPulseDurations l = List.replicate (qualifiedPresses l) 10 ∧
    stepPulseDurations (List.replicate n true) = [10] := by
  constructor
  · exact stepRun_count_aux l.length l (Nat.le_refl _)
  · obtain ⟨j, rfl⟩ : ∃ j, n = j + 2 := ⟨n - 2, by omega⟩
    have hrep : List.replicate (j + 2) true = true :: true :: List.replicate j true := by
      simp [List.replicate_succ]
    rw [stepPulseDurations, hrep,
      show stepRunAux false (true :: true :: List.replicate j true) =
        10 :: stepRunAux true (List.replicate j true) from rfl,
      stepRunAux_true_eq, dropRelease_replicate]
    rfl

/-- Witness for `step_one_pulse_per_press`: a trace holding two
qualified presses (among a short bounce and a held press) yields
exactly two 10 ms pulses, and a button held for five readings yields
exactly one. -/
theorem step_one_pulse_per_press_witness :
    stepPulseDurations [true, true, false, true, false, true, true, true] =
      List.replicate
        (qualifiedPresses [true, true, false, true, false, true, true, true]) 10 ∧
      stepPulseDurations (List.replicate 5 true) = [10] :=
  step_one_pulse_per_press [true, true, false, true, false, true, true, true] 5
    (by decide)

/-!
Reachability of the invariant: the startup state satisfies `SysInv` and
every main-loop iteration preserves it, so the `SysInv` hypotheses of
the theorems above hold in every reachable state.
-/

/-- The startup configuration satisfies the invariant. -/
theorem sysInv_initSys (table : Nat → Nat) (a0 : Nat) : SysInv (initSys table a0) := by
  by_cases h : isSoftwareMode (table a0) = true <;>
    simp [initSys, h, SysInv, nco_disconnect, nco_set_increment, runWs, applyWr,
      ncoDisconnectWs, ncoSetIncrementWs]

/-- The step branch preserves the invariant. -/
theorem sysInv_stepBranch (s : Sys) (p : Bool) (h : SysInv s) :
    SysInv (stepBranch s p) := by
  obtain ⟨h1, h2⟩ := h
  by_cases hg : (s.running || !s.halted) = true
  · by_cases hsw : s.softwareMode = true
    · have hnc : s.ncoEn = false := by
        rcases h1 with h' | h'
        · rw [hsw] at h'; cases h'
        · exact h'
      cases p <;>
        simp [stepBranch, hg, hsw, SysInv, hnc]
    · cases p <;>
        simp [stepBranch, hg, hsw, SysInv, nco_disconnect, runWs, applyWr,
          ncoDisconnectWs]
  · have hr : s.running = false := by
      rcases Bool.eq_false_or_eq_true s.running with h' | h'
      · simp [h'] at hg
      · exact h'
    have hh : s.halted = true := by
      rcases Bool.eq_false_or_eq_true s.halted with h' | h'
      · exact h'
      · simp [hr, h'] at hg
    rcases h2 with h' | ⟨g1, g2⟩
    · rw [hh] at h'; cases h'
    · cases p <;>
        simp [stepBranch, hr, hh, SysInv, g1, g2, h1]

/-- Resuming from a halted state preserves the invariant and clears the
halted flag. -/
theorem sysInv_resumeStep (table : Nat → Nat) (a : Nat) (s : Sys)
    (h : SysInv s) (hh : s.halted = true) :
    SysInv (resumeStep table a s) ∧ (resumeStep table a s).halted = false := by
  obtain ⟨h1, h2⟩ := h
  have hnc : s.ncoEn = false := by
    rcases h2 with h' | ⟨g1, -⟩
    · rw [hh] at h'; cases h'
    · exact g1
  by_cases hsw : isSoftwareMode (table a) = true <;>
    simp [resumeStep, hsw, SysInv, hnc, nco_set_increment, nco_connect, runWs,
      applyWr, ncoSetIncrementWs, ncoConnectWs]

/-- Case characterisation of the low-phase ADC re-check: no trigger, an
in-place software update, or the handoff to the NCO. -/
theorem lowAdcCheck_spec (table : Nat → Nat) (a : Nat) (s : Sys) :
    (hystTrigger s.lastAdc a = false ∧ lowAdcCheck table a s = (s, AdcRes.noChange)) ∨
    (hystTrigger s.lastAdc a = true ∧ isSoftwareMode (table a) = true ∧
      lowAdcCheck table a s = ({ s with lastAdc := a, freqEntry := table a, halfPeriod := getFreqValue (table a) }, AdcRes.swUpdate)) ∨
    (hystTrigger s.lastAdc a = true ∧ isSoftwareMode (table a) = false ∧
      lowAdcCheck table a s = (runWs (swToHwWs (getFreqValue (table a))) { s with lastAdc := a, freqEntry := table a }, AdcRes.ncoSwitch)) := by
  by_cases hT : hystTrigger s.lastAdc a = true
  · by_cases hS : isSoftwareMode (table a) = true
    · right; left
      exact ⟨hT, hS, by simp [lowAdcCheck, hT, hS]⟩
    · right; right
      refine ⟨hT, by simpa using hS, by simp [lowAdcCheck, hT, hS]⟩
  · left
    exact ⟨by simpa using hT, by simp [lowAdcCheck, hT]⟩

/-- The low-phase loop changes neither the halted nor the running
flag. -/
theorem lowLoop_halted_running (table : Nat → Nat) (checks : Nat → Bool)
    (adcs : Nat → Nat) (fuel : Nat) :
    ∀ (i n : Nat) (s : Sys),
      (lowLoop table checks adcs fuel i n s).1.halted = s.halted ∧
      (lowLoop table checks adcs fuel i n s).1.running = s.running := by
  induction fuel with
  | zero => intro i n s; exact ⟨rfl, rfl⟩
  | succ f ih =>
    intro i n s
    by_cases h1 : i < n
    · by_cases h2 : i % 1024 = 0
      · by_cases h3 : checks i = true
        · simp [lowLoop, h1, h2, h3]
        · rcases lowAdcCheck_spec table (adcs i) s with ⟨hT, hEq⟩ |
            ⟨hT, hS, hEq⟩ | ⟨hT, hS, hEq⟩
          · have hrec : lowLoop table checks adcs (f + 1) i n s =
                lowLoop table checks adcs f (i + 1) n s := by
              simp [lowLoop, h1, h2, h3, hEq]
            rw [hrec]
            exact ih (i + 1) n s
          · have hrec : lowLoop table checks adcs (f + 1) i n s =
                lowLoop table checks adcs f (i + 1)
                  (({ s with lastAdc := adcs i, freqEntry := table (adcs i), halfPeriod := getFreqValue (table (adcs i)) } : Sys).halfPeriod / 240)
                  { s with lastAdc := adcs i, freqEntry := table (adcs i), halfPeriod := getFreqValue (table (adcs i)) } := by
              simp [lowLoop, h1, h2, h3, hEq]
            rw [hrec]
            exact ih (i + 1) _ _
          · have hrec : lowLoop table checks adcs (f + 1) i n s =
                (runWs (swToHwWs (getFreqValue (table (adcs i)))) { s with lastAdc := adcs i, freqEntry := table (adcs i) }, false) := by
              simp [lowLoop, h1, h2, h3, hEq]
            rw [hrec]
            simp [runWs, swToHwWs, ncoConnectWs, ncoSetIncrementWs, applyWr]
      · have hrec : lowLoop table checks adcs (f + 1) i n s =
            lowLoop table checks adcs f (i + 1) n s := by
          simp [lowLoop, h1, h2]
        rw [hrec]
        exact ih (i + 1) n s
    · simp [lowLoop, h1]

/-- The low-phase loop preserves the software-mode/NCO exclusion: the
only path that enables the NCO also clears the software-mode flag. -/
theorem lowLoop_excl (table : Nat → Nat) (checks : Nat → Bool)
    (adcs : Nat → Nat) (fuel : Nat) :
    ∀ (i n : Nat) (s : Sys),
      (s.softwareMode = false ∨ s.ncoEn = false) →
      ((lowLoop table checks adcs fuel i n s).1.softwareMode = false ∨
        (lowLoop table checks adcs fuel i n s).1.ncoEn = false) := by
  induction fuel with
  | zero => intro i n s h; exact h
  | succ f ih =>
    intro i n s h
    by_cases h1 : i < n
    · by_cases h2 : i % 1024 = 0
      · by_cases h3 : checks i = true
        · simpa [lowLoop, h1, h2, h3] using h
        · rcases lowAdcCheck_spec table (adcs i) s with ⟨hT, hEq⟩ |
            ⟨hT, hS, hEq⟩ | ⟨hT, hS, hEq⟩
          · have hrec : lowLoop table checks adcs (f + 1) i n s =
                lowLoop table checks adcs f (i + 1) n s := by
              simp [lowLoop, h1, h2, h3, hEq]
            rw [hrec]
            exact ih (i + 1) n s h
          · have hrec : lowLoop table checks adcs (f + 1) i n s =
                lowLoop table checks adcs f (i + 1)
                  (({ s with lastAdc := adcs i, freqEntry := table (adcs i), halfPeriod := getFreqValue (table (adcs i)) } : Sys).halfPeriod / 240)
                  { s with lastAdc := adcs i, freqEntry := table (adcs i), halfPeriod := getFreqValue (table (adcs i)) } := by
              simp [lowLoop, h1, h2, h3, hEq]
            rw [hrec]
            exact ih (i + 1) _ _ (by simpa using h)
          · have hrec : lowLoop table checks adcs (f + 1) i n s =
                (runWs (swToHwWs (getFreqValue (table (adcs i)))) { s with lastAdc := adcs i, freqEntry := table (adcs i) }, false) := by
              simp [lowLoop, h1, h2, h3, hEq]
            rw [hrec]
            left
            simp [runWs, swToHwWs, ncoConnectWs, ncoSetIncrementWs, applyWr]
      · have hrec : lowLoop table checks adcs (f + 1) i n s =
            lowLoop table checks adcs f (i + 1) n s := by
          simp [lowLoop, h1, h2]
        rw [hrec]
        exact ih (i + 1) n s h
    · simpa [lowLoop, h1] using h

/-- The NCO-mode poll, entered only with software mode off, keeps the
exclusion and changes neither the halted nor the running flag. -/
theorem ncoPoll_inv (table : Nat → Nat) (a : Nat) (s : Sys)
    (h : s.softwareMode = false) :
    ((ncoPoll table a s).softwareMode = false ∨ (ncoPoll table a s).ncoEn = false) ∧
      (ncoPoll table a s).halted = s.halted ∧ (ncoPoll table a s).running = s.running := by
  by_cases hT : hystTrigger s.lastAdc a = true
  · by_cases hS : isSoftwareMode (table a) = true
    · refine ⟨Or.inr ?_, ?_, ?_⟩ <;>
        simp [ncoPoll, hT, hS, runWs, hwToSwWs, ncoDisconnectWs, applyWr]
    · refine ⟨Or.inl ?_, ?_, ?_⟩ <;>
        simp [ncoPoll, hT, hS, h, nco_set_increment, runWs, ncoSetIncrementWs, applyWr]
  · exact ⟨Or.inl (by simp [ncoPoll, hT, h]), by simp [ncoPoll, hT], by simp [ncoPoll, hT]⟩

/-- The generation phase of a running (not halted) iteration preserves
the invariant. -/
theorem genPhase_inv (table : Nat → Nat) (it : Iter) (s : Sys)
    (h1 : s.softwareMode = false ∨ s.ncoEn = false) (h2 : s.halted = false) :
    SysInv (genPhase table it s) := by
  by_cases hsw : s.softwareMode = true
  · have hnc : s.ncoEn = false := by
      rcases h1 with h' | h'
      · rw [hsw] at h'; cases h'
      · exact h'
    rw [genPhase, if_pos hsw, softPhasePair_eq]
    constructor
    · exact lowLoop_excl table it.checksLow it.adcsLow it.fuel 0 (s.halfPeriod / 240)
        { s with latb6 := false } (Or.inr hnc)
    · left
      exact (lowLoop_halted_running table it.checksLow it.adcsLow it.fuel 0
        (s.halfPeriod / 240) { s with latb6 := false }).1.trans h2
  · have hsw2 : s.softwareMode = false := by
      rcases Bool.eq_false_or_eq_true s.softwareMode with h' | h'
      · exact absurd h' hsw
      · exact h'
    rw [genPhase, if_neg hsw]
    obtain ⟨g1, g2, -⟩ := ncoPoll_inv table it.adcPoll s hsw2
    exact ⟨g1, Or.inl (g2.trans h2)⟩

/-- Every main-loop iteration preserves the invariant, so it holds in
every state reachable from `initSys`. -/
theorem sysInv_mainStep (table : Nat → Nat) (s : Sys) (it : Iter)
    (h : SysInv s) : SysInv (mainStep table s it).1 := by
  by_cases hH : it.haltSel = true
  · rw [show (mainStep table s it).1 = haltBranch s from by simp [mainStep, hH]]
    exact (haltBranch_props s h).2.2.2
  · by_cases hS : it.stepSel = true
    · rw [show (mainStep table s it).1 = stepBranch s it.btnPulse from by
        simp [mainStep, hH, hS]]
      exact sysInv_stepBranch s it.btnPulse h
    · rw [show (mainStep table s it).1 =
        genPhase table it (if s.halted then resumeStep table it.adcR s else s) from by
          simp [mainStep, hH, hS]]
      by_cases hh : s.halted = true
      · obtain ⟨g1, g2⟩ := sysInv_resumeStep table it.adcR s h hh
        rw [if_pos hh]
        exact genPhase_inv table it _ g1.1 g2
      · have hh2 : s.halted = false := by
          rcases Bool.eq_false_or_eq_true s.halted with h' | h'
          · exact absurd h' hh
          · exact h'
        rw [if_neg hh]
        exact genPhase_inv table it s h.1 hh2
